import Mathlib

/-!
Shallow embedding of `render_api/extract_service.py`.

Strings are modelled as `List Char` wrapped in `String`.  Each `re.sub` call in
`normalize_extracted_text` is embedded as a left-to-right character scanner that
mirrors the Python regex engine's leftmost-match behaviour for that particular
pattern (these patterns are all deterministic after resolving greediness, which
is worked out case by case in the comments).  External capabilities (PyMuPDF,
doctra OCR, python-docx, the structured DOCX parser, the filesystem) are
modelled as explicit arguments carrying the values those capabilities would
produce, with `Except` for the exceptions they may raise.
-/

namespace ExtractService

/-- Python's notion of a whitespace character (`str.isspace`, and regex `\s`
in Unicode mode): ASCII whitespace, the C0 file/group/record/unit separators,
NEL, NBSP and the Unicode space characters. -/
def isPySpace (c : Char) : Bool :=
  c == ' ' || c == '\t' || c == '\n' || c == '\r' || c == '\x0b' || c == '\x0c' ||
  (decide ('\x1c' ≤ c) && decide (c ≤ '\x1f')) || c == '\x85' || c == '\xa0' ||
  c == '\u1680' || (decide ('\u2000' ≤ c) && decide (c ≤ '\u200a')) ||
  c == '\u2028' || c == '\u2029' || c == '\u202f' || c == '\u205f' || c == '\u3000'

/-- The backtick character (code point 96). -/
def btChar : Char := Char.ofNat 96

/-- Stage 1: `text.replace("\r\n", "\n")` (left-to-right, non-overlapping). -/
def replaceCRLF : List Char → List Char
  | [] => []
  | [c] => [c]
  | c :: d :: rest =>
    if c = '\r' ∧ d = '\n' then '\n' :: replaceCRLF rest
    else c :: replaceCRLF (d :: rest)

/-- Scanner state for stage 2, the image rule. -/
inductive ImgState : Type
  | base
  | bang
  | alt (acc : List Char)
  | close (alt : List Char)
  | tgt (alt acc : List Char)

/-- Stage 2: `re.sub(r"!\[[^\]]*\]\(([^)]+)\)", " ", text)`.
On a failed partial match the collected characters are emitted literally; the
buffered region cannot contain the start of a match the engine would have
found (the buffered alt part is `]`-free and the buffered target part is
`)`-free), except for a fresh `!` at the failure character, which the
fallback transitions re-examine. -/
def imageGo : ImgState → List Char → List Char
  | .base, [] => []
  | .base, c :: rest => if c = '!' then imageGo .bang rest else c :: imageGo .base rest
  | .bang, [] => ['!']
  | .bang, c :: rest =>
    if c = '[' then imageGo (.alt []) rest
    else if c = '!' then '!' :: imageGo .bang rest
    else '!' :: c :: imageGo .base rest
  | .alt acc, [] => '!' :: '[' :: acc.reverse
  | .alt acc, c :: rest =>
    if c = ']' then imageGo (.close acc) rest
    else imageGo (.alt (c :: acc)) rest
  | .close alt, [] => '!' :: '[' :: alt.reverse ++ [']']
  | .close alt, c :: rest =>
    if c = '(' then imageGo (.tgt alt []) rest
    else if c = '!' then ('!' :: '[' :: alt.reverse ++ [']']) ++ imageGo .bang rest
    else ('!' :: '[' :: alt.reverse ++ [']']) ++ c :: imageGo .base rest
  | .tgt alt acc, [] => '!' :: '[' :: alt.reverse ++ ']' :: '(' :: acc.reverse
  | .tgt alt acc, c :: rest =>
    if c = ')' then
      if acc.isEmpty then ('!' :: '[' :: alt.reverse ++ [']', '(', ')']) ++ imageGo .base rest
      else ' ' :: imageGo .base rest
    else imageGo (.tgt alt (c :: acc)) rest

/-- Scanner state for stage 3, the heading rule. -/
inductive HeadState : Type
  | out
  | ls
  | hash (k : Nat)
  | hws (nl : Bool)

/-- Stage 3: `re.sub(r"^#{1,6}\s*", "", text, flags=re.MULTILINE)`.
`^` matches at position 0 and after every newline of the original string;
`#{1,6}` greedily takes at most six hashes, `\s*` greedily eats whitespace,
newlines included.  `hws` records whether the last eaten whitespace character
was a newline, i.e. whether the resume position is a line start. -/
def headingGo : HeadState → List Char → List Char
  | .out, [] => []
  | .out, c :: rest => if c = '\n' then '\n' :: headingGo .ls rest else c :: headingGo .out rest
  | .ls, [] => []
  | .ls, c :: rest =>
    if c = '#' then headingGo (.hash 1) rest
    else if c = '\n' then '\n' :: headingGo .ls rest
    else c :: headingGo .out rest
  | .hash _, [] => []
  | .hash k, c :: rest =>
    if c = '#' then
      if k < 6 then headingGo (.hash (k + 1)) rest
      else '#' :: headingGo .out rest
    else if isPySpace c then headingGo (.hws (c = '\n')) rest
    else c :: headingGo .out rest
  | .hws _, [] => []
  | .hws nl, c :: rest =>
    if isPySpace c then headingGo (.hws (c = '\n')) rest
    else if nl then
      if c = '#' then headingGo (.hash 1) rest else c :: headingGo .out rest
    else c :: headingGo .out rest

/-- Bullet marker characters, the class `[-*+]`. -/
def isBulletMarker (c : Char) : Bool := c == '-' || c == '*' || c == '+'

/-- Scanner state for stage 4, the bullet rule. -/
inductive BulState : Type
  | out
  | ls (acc : List Char)
  | mk (acc : List Char) (m : Char)
  | skip (nl : Bool)

/-- Stage 4: `re.sub(r"^\s*[-*+]\s+", "", text, flags=re.MULTILINE)`.
At a line start, `\s*` greedily eats whitespace (newlines included, skipping
interior line starts); the match succeeds once a marker followed by at least
one whitespace character is found.  On failure the buffered whitespace is
emitted literally: re-scanning it cannot produce a match because every line
start inside it is followed by whitespace and then the same failing
character. -/
def bulletGo : BulState → List Char → List Char
  | .out, [] => []
  | .out, c :: rest => if c = '\n' then '\n' :: bulletGo (.ls []) rest else c :: bulletGo .out rest
  | .ls acc, [] => acc.reverse
  | .ls acc, c :: rest =>
    if isPySpace c then bulletGo (.ls (c :: acc)) rest
    else if isBulletMarker c then bulletGo (.mk acc c) rest
    else acc.reverse ++ c :: bulletGo .out rest
  | .mk acc m, [] => acc.reverse ++ [m]
  | .mk acc m, c :: rest =>
    if isPySpace c then bulletGo (.skip (c = '\n')) rest
    else acc.reverse ++ m :: c :: bulletGo .out rest
  | .skip _, [] => []
  | .skip nl, c :: rest =>
    if isPySpace c then bulletGo (.skip (c = '\n')) rest
    else if nl then
      if isBulletMarker c then bulletGo (.mk [] c) rest
      else c :: bulletGo .out rest
    else c :: bulletGo .out rest

/-- Scanner state for stage 5, the blockquote rule. -/
inductive QuoteState : Type
  | out
  | ls (acc : List Char)
  | q

/-- Stage 5: `re.sub(r"^\s*>\s?", "", text, flags=re.MULTILINE)`.
After `ws* '>'` the match is already certain; `\s?` greedily takes one more
whitespace character when present, and the resume position is a line start
exactly when that extra character was a newline. -/
def quoteGo : QuoteState → List Char → List Char
  | .out, [] => []
  | .out, c :: rest => if c = '\n' then '\n' :: quoteGo (.ls []) rest else c :: quoteGo .out rest
  | .ls acc, [] => acc.reverse
  | .ls acc, c :: rest =>
    if isPySpace c then quoteGo (.ls (c :: acc)) rest
    else if c = '>' then quoteGo .q rest
    else acc.reverse ++ c :: quoteGo .out rest
  | .q, [] => []
  | .q, c :: rest =>
    if isPySpace c then
      if c = '\n' then quoteGo (.ls []) rest else quoteGo .out rest
    else c :: quoteGo .out rest

/-- Scanner state for stage 6, the inline-code rule. -/
inductive CodeState : Type
  | base
  | code (acc : List Char)

/-- Stage 6: unwrapping inline code spans (backtick, one or more non-backtick
characters, backtick, replaced by the inner characters).  An immediately
repeated backtick cannot close an empty span, so the first backtick is emitted
literally and the second one opens a new tentative span. -/
def codeGo : CodeState → List Char → List Char
  | .base, [] => []
  | .base, c :: rest => if c = btChar then codeGo (.code []) rest else c :: codeGo .base rest
  | .code acc, [] => btChar :: acc.reverse
  | .code acc, c :: rest =>
    if c = btChar then
      if acc.isEmpty then btChar :: codeGo (.code []) rest
      else acc.reverse ++ codeGo .base rest
    else codeGo (.code (c :: acc)) rest

/-- Scanner state for stages 7 and 8, the double-delimiter emphasis rules. -/
inductive EmphState : Type
  | base
  | one
  | opened (acc : List Char)
  | closing (acc : List Char)

/-- Stages 7 and 8: `re.sub(r"\*\*([^*]+)\*\*", r"\1", text)` for `d = '*'` and
`re.sub(r"__([^_]+)__", r"\1", text)` for `d = '_'`: a doubled delimiter, one
or more non-delimiter characters, and a doubled delimiter, replaced by the
inner characters. -/
def emphGo (d : Char) : EmphState → List Char → List Char
  | .base, [] => []
  | .base, c :: rest => if c = d then emphGo d .one rest else c :: emphGo d .base rest
  | .one, [] => [d]
  | .one, c :: rest => if c = d then emphGo d (.opened []) rest else d :: c :: emphGo d .base rest
  | .opened acc, [] => d :: d :: acc.reverse
  | .opened acc, c :: rest =>
    if c = d then
      if acc.isEmpty then d :: emphGo d (.opened []) rest
      else emphGo d (.closing acc) rest
    else emphGo d (.opened (c :: acc)) rest
  | .closing acc, [] => d :: d :: acc.reverse ++ [d]
  | .closing acc, c :: rest =>
    if c = d then acc.reverse ++ emphGo d .base rest
    else d :: d :: acc.reverse ++ d :: c :: emphGo d .base rest

/-- Scanner state for stage 9, the link rule. -/
inductive LinkState : Type
  | base
  | lab (acc : List Char)
  | close (lab : List Char)
  | tgt (lab acc : List Char)

/-- Stage 9: `re.sub(r"\[([^\]]+)\]\([^)]+\)", r"\1", text)`: a bracketed
non-empty label followed by a parenthesised non-empty target, replaced by the
label. -/
def linkGo : LinkState → List Char → List Char
  | .base, [] => []
  | .base, c :: rest => if c = '[' then linkGo (.lab []) rest else c :: linkGo .base rest
  | .lab acc, [] => '[' :: acc.reverse
  | .lab acc, c :: rest =>
    if c = ']' then
      if acc.isEmpty then '[' :: ']' :: linkGo .base rest
      else linkGo (.close acc) rest
    else linkGo (.lab (c :: acc)) rest
  | .close lab, [] => '[' :: lab.reverse ++ [']']
  | .close lab, c :: rest =>
    if c = '(' then linkGo (.tgt lab []) rest
    else if c = '[' then ('[' :: lab.reverse ++ [']']) ++ linkGo (.lab []) rest
    else ('[' :: lab.reverse ++ [']']) ++ c :: linkGo .base rest
  | .tgt lab acc, [] => '[' :: lab.reverse ++ ']' :: '(' :: acc.reverse
  | .tgt lab acc, c :: rest =>
    if c = ')' then
      if acc.isEmpty then ('[' :: lab.reverse ++ [']', '(', ')']) ++ linkGo .base rest
      else lab.reverse ++ linkGo .base rest
    else linkGo (.tgt lab (c :: acc)) rest

/-- The character class `[-:\s|]` of the table-separator rule. -/
def isTableSepChar (c : Char) : Bool := c == '-' || c == ':' || c == '|' || isPySpace c

/-- Index of the last `'\n'` at position at least 1 of the list (accumulator
`acc` holds the best index found so far, `i` the index of the head). -/
def lastNlIdxAux : Nat → Option Nat → List Char → Option Nat
  | _, acc, [] => acc
  | i, acc, c :: rest => lastNlIdxAux (i + 1) (if 1 ≤ i ∧ c = '\n' then some i else acc) rest

/-- Scanner state for stage 10, the table-separator rule. -/
inductive TsState : Type
  | out
  | run (acc : List Char)

/-- Stage 10: `re.sub(r"^\|?[-:\s|]+\|?$", "", text, flags=re.MULTILINE)`.
Since `|` belongs to the inner class, a match is a non-empty run of class
characters starting at a line start; backtracking makes the engine end the
match at the largest position where `$` holds, i.e. at the end of the string
(when the run reaches it) or just before the last interior newline of the run
(the match must be non-empty, so that newline's index must be at least 1).
When no such position exists the run is emitted unchanged; no line start
inside the emitted run can start a match that the scan would have missed. -/
def tableSepGo : TsState → List Char → List Char
  | .out, [] => []
  | .out, c :: rest => if c = '\n' then '\n' :: tableSepGo (.run []) rest else c :: tableSepGo .out rest
  | .run _, [] => []
  | .run acc, c :: rest =>
    if isTableSepChar c then tableSepGo (.run (c :: acc)) rest
    else
      (match lastNlIdxAux 0 none acc.reverse with
       | some e => acc.reverse.drop e
       | none => acc.reverse) ++ c :: tableSepGo .out rest

/-- Stage 11: `text.replace("|", " ")`. -/
def replacePipe (l : List Char) : List Char := l.map fun c => if c = '|' then ' ' else c

/-- Emit a pending run of `k` newlines, collapsed to two when `k ≥ 3`. -/
def newlineFlush (k : Nat) : List Char := if 3 ≤ k then ['\n', '\n'] else List.replicate k '\n'

/-- Stage 12: `re.sub(r"\n{3,}", "\n\n", text)`: every maximal run of three or
more newlines becomes exactly two. -/
def collapseNewlinesGo : Nat → List Char → List Char
  | k, [] => newlineFlush k
  | k, c :: rest =>
    if c = '\n' then collapseNewlinesGo (k + 1) rest
    else newlineFlush k ++ c :: collapseNewlinesGo 0 rest

/-- The character class `[ \t]` of the horizontal-whitespace rule. -/
def isBlank (c : Char) : Bool := c == ' ' || c == '\t'

/-- Emit a pending (reversed) run of blanks, collapsed to one space when the
run has length at least 2. -/
def blankFlush (acc : List Char) : List Char := if 2 ≤ acc.length then [' '] else acc.reverse

/-- Stage 13: `re.sub(r"[ \t]{2,}", " ", text)`: every maximal run of two or
more spaces/tabs becomes a single space (a lone space or tab is kept as is). -/
def collapseBlanksGo : List Char → List Char → List Char
  | acc, [] => blankFlush acc
  | acc, c :: rest =>
    if isBlank c then collapseBlanksGo (c :: acc) rest
    else blankFlush acc ++ c :: collapseBlanksGo [] rest

/-- Stage 14: Python `str.strip()`: drop leading and trailing whitespace. -/
def pyStrip (l : List Char) : List Char :=
  ((l.dropWhile fun c => isPySpace c).reverse.dropWhile fun c => isPySpace c).reverse

/-- The full normalization pipeline of `normalize_extracted_text` on character
lists, stages in source order (`str(value or "")` is the identity on every
string input and is omitted).  The multiline scanners start in their
line-start state because position 0 is a line start. -/
def normalizeChars (l : List Char) : List Char :=
  pyStrip (collapseBlanksGo [] (collapseNewlinesGo 0 (replacePipe
    (tableSepGo (.run []) (linkGo .base (emphGo '_' .base (emphGo '*' .base
      (codeGo .base (quoteGo (.ls []) (bulletGo (.ls []) (headingGo .ls
        (imageGo .base (replaceCRLF l)))))))))))))

/-- `normalize_extracted_text` of the source, on `String`. -/
def normalize_extracted_text (s : String) : String := String.mk (normalizeChars s.data)

/-- `FileKind = Literal["pdf", "docx", "image"]` of the source. -/
inductive FileKind : Type
  | pdf
  | docx
  | image
deriving DecidableEq, Repr

/-- `PDF_MIME` of the source. -/
def PDF_MIME : String := "application/pdf"

/-- `DOCX_MIME` of the source. -/
def DOCX_MIME : String :=
  "application/vnd.openxmlformats-officedocument.wordprocessingml.document"

/-- `str.lower` on the ASCII range (all strings the classifier compares
against are ASCII). -/
def asciiLower (s : String) : String := String.mk (s.data.map Char.toLower)

/-- `s.split(";")[0]`: everything before the first `';'` (the whole string
when there is none). -/
def beforeSemicolon (s : String) : String := String.mk (s.data.takeWhile fun c => c ≠ ';')

/-- `p.startswith(q)` as a structural scan. -/
def strStartsWith (s p : String) : Bool := List.isPrefixOf p.data s.data

/-- `p.endswith(q)` as a structural scan. -/
def strEndsWith (s p : String) : Bool := List.isSuffixOf p.data s.data

/-- Python `str.strip()` on `String`. -/
def pyStripStr (s : String) : String := String.mk (pyStrip s.data)

/-- `str(content_type or "").split(";")[0].strip().lower()` of
`detect_file_kind` (an absent or empty hint becomes `""`). -/
def normalized_content_type (content_type : Option String) : String :=
  asciiLower (pyStripStr (beforeSemicolon (content_type.getD "")))

/-- Split a character list at every `'/'` (like `str.split("/")`). -/
def splitSlashAux : List Char → List Char → List (List Char)
  | acc, [] => [acc.reverse]
  | acc, c :: rest =>
    if c = '/' then acc.reverse :: splitSlashAux [] rest
    else splitSlashAux (c :: acc) rest

/-- `pathlib.PurePosixPath(file_name).name`: the last path component, with
empty and `"."` components dropped. -/
def pathName (file_name : String) : String :=
  String.mk ((((splitSlashAux [] file_name.data).filter
    fun comp => comp ≠ [] ∧ comp ≠ ['.']).getLast?).getD [])

/-- Index of the last `'.'` in the list (accumulator as in `str.rfind`). -/
def lastDotIdxAux : Nat → Option Nat → List Char → Option Nat
  | _, acc, [] => acc
  | i, acc, c :: rest => lastDotIdxAux (i + 1) (if c = '.' then some i else acc) rest

/-- `pathlib.PurePosixPath(file_name or "").suffix`: the part of the name from
its last dot on, provided that dot is neither the first nor the last
character of the name. -/
def path_suffix (file_name : String) : String :=
  let nm := (pathName file_name).data
  match lastDotIdxAux 0 none nm with
  | some i => if 0 < i ∧ i < nm.length - 1 then String.mk (nm.drop i) else ""
  | none => ""

/-- `detect_file_kind` of the source; `ValueError` becomes `Except.error`. -/
def detect_file_kind (file_name : String) (content_type : Option String) :
    Except String FileKind :=
  let nct := normalized_content_type content_type
  let sfx := asciiLower (path_suffix file_name)
  if strStartsWith nct "image/" then .ok .image
  else if nct = PDF_MIME ∨ sfx = ".pdf" then .ok .pdf
  else if nct = DOCX_MIME ∨ sfx = ".docx" then .ok .docx
  else .error "Unsupported file type. Upload PDF, DOCX, or image."

/-- `read_pdf_text_direct`: the per-page text-layer strings (each page's
`page.get_text("text") or ""`) joined by a double newline. -/
def read_pdf_text_direct (pages : List String) : String :=
  String.intercalate "\n\n" pages

/-- `ocr_pdf_with_doctra`: at most `max_pages = 12` leading rendered pages are
OCRed; empty page results are skipped and the rest joined by a double
newline.  The argument carries the OCR text of each rendered page. -/
def ocr_pdf_with_doctra (pageTexts : List String) : String :=
  String.intercalate "\n\n" ((pageTexts.take 12).filter fun t => t ≠ "")

/-- `parse_pdf` of the source.  The two capabilities (text-layer reader and
page OCR) are passed as `Except`-valued outcomes; the returned flag records
whether the OCR branch was taken. -/
def parse_pdf {ε : Type} (directPages : Except ε (List String))
    (ocrPages : Except ε (List String)) : Except ε (String × Bool) :=
  match directPages with
  | .error e => .error e
  | .ok pages =>
    let direct_text := normalize_extracted_text (read_pdf_text_direct pages)
    if 250 ≤ direct_text.length then .ok (direct_text, false)
    else
      match ocrPages with
      | .error e => .error e
      | .ok opages =>
        let ocr_text := normalize_extracted_text (ocr_pdf_with_doctra opages)
        if direct_text.length < ocr_text.length then .ok (ocr_text, true)
        else .ok (direct_text, true)

/-- A top-level body element of a DOCX document: a paragraph or a table
(a table is a list of rows, a row a list of cell texts). -/
inductive DocxBlock : Type
  | para (text : String)
  | table (rows : List (List String))
deriving DecidableEq

/-- A DOCX document as python-docx exposes it: body elements in document
order. -/
structure DocxDocument : Type where
  body : List DocxBlock
deriving DecidableEq

/-- `doc.paragraphs` of python-docx: the body's paragraphs, in body order. -/
def docxParagraphs (doc : DocxDocument) : List String :=
  doc.body.filterMap fun b => match b with | .para t => some t | .table _ => none

/-- `doc.tables` of python-docx: the body's tables, in body order. -/
def docxTables (doc : DocxDocument) : List (List (List String)) :=
  doc.body.filterMap fun b => match b with | .para _ => none | .table rows => some rows

/-- One table row of `read_docx_text_direct`: cells stripped, empty cells
dropped, the rest joined by `" | "`. -/
def docxRowText (row : List String) : String :=
  String.intercalate " | " ((row.map pyStripStr).filter fun cell => cell ≠ "")

/-- `read_docx_text_direct` of the source: walk `doc.paragraphs` appending
each stripped non-empty paragraph, then walk `doc.tables` appending each
non-empty row line, and join with newlines. -/
def read_docx_text_direct (doc : DocxDocument) : String :=
  let lines1 := (docxParagraphs doc).foldl
    (fun acc p => let t := pyStripStr p; if t ≠ "" then acc ++ [t] else acc) []
  let lines2 := (docxTables doc).foldl
    (fun acc tbl => tbl.foldl
      (fun acc2 row => let rt := docxRowText row; if rt ≠ "" then acc2 ++ [rt] else acc2) acc)
    lines1
  String.intercalate "\n" lines2

/-- The claim's reading of the DOCX walk, following the spec's words: one pass
over the body in document order, paragraphs and table rows interleaved as
they occur. -/
def read_docx_document_order (doc : DocxDocument) : String :=
  String.intercalate "\n" (doc.body.foldl
    (fun acc b => match b with
      | .para p => let t := pyStripStr p; if t ≠ "" then acc ++ [t] else acc
      | .table rows => rows.foldl
          (fun acc2 row => let rt := docxRowText row; if rt ≠ "" then acc2 ++ [rt] else acc2)
          acc)
    [])

/-- The stripped non-empty paragraph lines of a document, in order. -/
def docxParagraphLines (doc : DocxDocument) : List String :=
  ((docxParagraphs doc).map pyStripStr).filter fun t => t ≠ ""

/-- The non-empty table row lines of a document, tables in order, rows in
order within each table. -/
def docxTableLines (doc : DocxDocument) : List String :=
  (docxTables doc).flatMap fun tbl => (tbl.map docxRowText).filter fun rt => rt ≠ ""

/-- Insertion into a list sorted by path (string order), keeping earlier
elements first on ties. -/
def insertByPath (f : String × String) : List (String × String) → List (String × String)
  | [] => [f]
  | g :: rest => if f.1 < g.1 ∨ f.1 = g.1 then f :: g :: rest else g :: insertByPath f rest

/-- `sorted(...)` of the markdown file list by path. -/
def sortByPath (files : List (String × String)) : List (String × String) :=
  files.foldr insertByPath []

/-- The loop of `read_first_markdown`: first file whose normalized content is
non-empty, else `""`. -/
def firstCleanMarkdown : List (String × String) → String
  | [] => ""
  | f :: rest =>
    let cleaned := normalize_extracted_text f.2
    if cleaned ≠ "" then cleaned else firstCleanMarkdown rest

/-- `read_first_markdown` of the source: the work-area files (path paired
with raw content) are filtered to `*.md`, sorted by path, and scanned for the
first non-empty normalized content. -/
def read_first_markdown (files : List (String × String)) : String :=
  firstCleanMarkdown (sortByPath (files.filter fun f => strEndsWith f.1 ".md"))

/-- `parse_docx` of the source.  `docLoad` is the outcome of
`Document(path)`; `parserFiles` is the outcome of running
`StructuredDOCXParser` and carries the work-area file tree it wrote (paths
relative to `outputs/<stem>`, paired with raw contents). -/
def parse_docx {ε : Type} (docLoad : Except ε DocxDocument)
    (parserFiles : Except ε (List (String × String))) : Except ε String :=
  match docLoad with
  | .error e => .error e
  | .ok doc =>
    let direct_text := normalize_extracted_text (read_docx_text_direct doc)
    if 120 ≤ direct_text.length then .ok direct_text
    else
      match parserFiles with
      | .error e => .error e
      | .ok files =>
        match files.lookup "document.md" with
        | some content => .ok (normalize_extracted_text content)
        | none => .ok (read_first_markdown files)

/-- `parse_image` of the source: the load/convert/OCR chain is one capability
outcome; its text is normalized. -/
def parse_image {ε : Type} (ocrText : Except ε String) : Except ε String :=
  match ocrText with
  | .error e => .error e
  | .ok t => .ok (normalize_extracted_text t)

/-- An error escaping `extract_text`: the classifier's `ValueError` or an
extraction failure wrapping the underlying cause. -/
inductive ExtractErr (ε : Type) : Type
  | valueError (msg : String)
  | extractionFailure (cause : ε)
deriving DecidableEq

/-- The kind dispatch inside the `try` block of `extract_text`. -/
def dispatch_parse {ε : Type} (kind : FileKind)
    (pdfDirect pdfOcr : Except ε (List String))
    (docLoad : Except ε DocxDocument) (parserFiles : Except ε (List (String × String)))
    (imageOcr : Except ε String) : Except ε String :=
  match kind with
  | .pdf => (parse_pdf pdfDirect pdfOcr).map fun r => r.1
  | .docx => parse_docx docLoad parserFiles
  | .image => parse_image imageOcr

/-- `extract_text` of the source.  `outputsExists` is whether
`outputs/<stem>` exists when the `finally` block runs; `rmtreeRemoves` is
whether `shutil.rmtree(..., ignore_errors=True)` succeeds in removing it (its
errors are swallowed by `ignore_errors`).  The second component of the result
is whether `outputs/<stem>` exists after the call returns.  A classification
failure is raised before the `try` block, so no cleanup runs on that path. -/
def extract_text {ε : Type} (file_name : String) (content_type : Option String)
    (pdfDirect pdfOcr : Except ε (List String))
    (docLoad : Except ε DocxDocument) (parserFiles : Except ε (List (String × String)))
    (imageOcr : Except ε String)
    (outputsExists rmtreeRemoves : Bool) :
    Except (ExtractErr ε) (String × FileKind) × Bool :=
  match detect_file_kind file_name content_type with
  | .error msg => (.error (.valueError msg), outputsExists)
  | .ok kind =>
    let parsed := dispatch_parse kind pdfDirect pdfOcr docLoad parserFiles imageOcr
    let outputsAfter := outputsExists && !rmtreeRemoves
    match parsed with
    | .error e => (.error (.extractionFailure e), outputsAfter)
    | .ok text => (.ok (text, kind), outputsAfter)

/-- The characters that can begin or continue a match of one of the
marker-stripping rules of the normalizer: carriage return, hash, the bullet
markers, the blockquote marker, backtick, underscore, opening bracket, bang,
pipe and colon. -/
def isTriggerChar (c : Char) : Bool :=
  c == '\r' || c == '#' || c == '-' || c == '*' || c == '+' || c == '>' ||
  c == btChar || c == '_' || c == '[' || c == '!' || c == '|' || c == ':'

/-- No two adjacent whitespace characters anywhere in the list. -/
def noTwoAdjacentWs : List Char → Bool
  | [] => true
  | [_] => true
  | a :: b :: rest => !(isPySpace a && isPySpace b) && noTwoAdjacentWs (b :: rest)

/-- Text on which the normalizer has nothing to do: no marker characters, no
two adjacent whitespace characters, and no leading or trailing whitespace. -/
def CleanText (l : List Char) : Prop :=
  (∀ c ∈ l, isTriggerChar c = false) ∧
  noTwoAdjacentWs l = true ∧
  (l.head?.all fun c => !isPySpace c) = true ∧
  (l.getLast?.all fun c => !isPySpace c) = true

instance (l : List Char) : Decidable (CleanText l) :=
  inferInstanceAs (Decidable (
    (∀ c ∈ l, isTriggerChar c = false) ∧
    noTwoAdjacentWs l = true ∧
    (l.head?.all fun c => !isPySpace c) = true ∧
    (l.getLast?.all fun c => !isPySpace c) = true))

/-- C8: `normalize_extracted_text` is a total function of its string argument
(it is a plain Lean function, every stage of the pipeline is structurally
recursive and nothing can fail), and the empty input yields the empty
output. -/
theorem normalize_total_empty : normalize_extracted_text "" = "" := rfl

/-- C2 counterexample: normalization is not idempotent.  On `"- - a"` the
bullet rule removes only the leading `"- "` (the regex engine does not rescan
its own output), so a second application strips again:
`normalize("- - a") = "- a"` but `normalize("- a") = "a"`. -/
theorem normalize_not_idempotent :
    normalize_extracted_text (normalize_extracted_text "- - a") ≠
      normalize_extracted_text "- - a" := by decide

/-- C4: whenever the normalized content-type hint (part before any `';'`,
stripped, lowercased) starts with `"image/"`, classification returns IMAGE,
regardless of the file name and hence of its extension. -/
theorem detect_image_hint_spec (name : String) (ct : Option String)
    (h : strStartsWith (normalized_content_type ct) "image/" = true) :
    detect_file_kind name ct = Except.ok FileKind.image := by
  simp only [detect_file_kind]
  rw [if_pos h]

/-- Witness for C4 at a concrete input whose extension says PDF but whose
content type says image. -/
theorem detect_image_hint_spec_witness :
    detect_file_kind "photo.pdf" (some "IMAGE/JPEG; q=1") = Except.ok FileKind.image :=
  detect_image_hint_spec "photo.pdf" (some "IMAGE/JPEG; q=1") (by decide)

/-- C5: classification fails (with the unsupported-type `ValueError`) exactly
when the lowercased extension is neither `.pdf` nor `.docx` and the
normalized content-type hint neither starts with `"image/"` nor equals the
canonical PDF or DOCX media type.  An absent hint normalizes to `""`, which
satisfies the hint-side conditions. -/
theorem detect_unsupported_iff (name : String) (ct : Option String) :
    ((asciiLower (path_suffix name) ≠ ".pdf" ∧ asciiLower (path_suffix name) ≠ ".docx") ∧
     (¬ strStartsWith (normalized_content_type ct) "image/" = true ∧
      normalized_content_type ct ≠ PDF_MIME ∧ normalized_content_type ct ≠ DOCX_MIME)) ↔
    detect_file_kind name ct =
      Except.error "Unsupported file type. Upload PDF, DOCX, or image." := by
  simp only [detect_file_kind]
  split_ifs with h1 h2 h3
  · exact iff_of_false (fun h => h.2.1 h1) (by simp)
  · exact iff_of_false (fun h => h2.elim (fun hp => h.2.2.1 hp) fun hs => h.1.1 hs) (by simp)
  · exact iff_of_false (fun h => h3.elim (fun hp => h.2.2.2 hp) fun hs => h.1.2 hs) (by simp)
  · exact iff_of_true ⟨⟨fun hs => h2 (Or.inr hs), fun hs => h3 (Or.inr hs)⟩, h1,
      fun hp => h2 (Or.inl hp), fun hp => h3 (Or.inl hp)⟩ rfl

/-- C9: an absent content-type hint classifies exactly like the empty-string
hint, and more generally any hint whose part before the first `';'` strips to
the empty string classifies like an absent hint. -/
theorem detect_absent_hint_eq (name : String) :
    detect_file_kind name none = detect_file_kind name (some "") ∧
    ∀ hint : String, pyStripStr (beforeSemicolon hint) = "" →
      detect_file_kind name (some hint) = detect_file_kind name none := by
  refine ⟨rfl, fun hint h => ?_⟩
  have hnct : normalized_content_type (some hint) = normalized_content_type none := by
    show asciiLower (pyStripStr (beforeSemicolon hint)) = _
    rw [h]; rfl
  simp only [detect_file_kind, hnct]

/-- Witness for C9 at a hint that strips to the empty string. -/
theorem detect_absent_hint_eq_witness :
    detect_file_kind "x" (some " ;q") = detect_file_kind "x" none :=
  (detect_absent_hint_eq "x").2 " ;q" (by decide)

/-- C1: in `parse_pdf`, when the normalized direct text-layer extraction has
length at least 250 the direct text is returned, the OCR flag is false and
the result does not depend on the OCR capability at all; otherwise the OCR
branch runs and the normalized OCR text is returned exactly when it is
strictly longer than the normalized direct text, ties giving the direct
text. -/
theorem parse_pdf_threshold_spec {ε : Type} (pages : List String)
    (ocr ocr' : Except ε (List String)) :
    (250 ≤ (normalize_extracted_text (read_pdf_text_direct pages)).length →
      parse_pdf (Except.ok pages) ocr =
        Except.ok (normalize_extracted_text (read_pdf_text_direct pages), false) ∧
      parse_pdf (Except.ok pages) ocr = parse_pdf (Except.ok pages) ocr') ∧
    ((normalize_extracted_text (read_pdf_text_direct pages)).length < 250 →
      ∀ opages : List String, ocr = Except.ok opages →
        parse_pdf (Except.ok pages) ocr =
          Except.ok
            ((if (normalize_extracted_text (read_pdf_text_direct pages)).length <
                  (normalize_extracted_text (ocr_pdf_with_doctra opages)).length
              then normalize_extracted_text (ocr_pdf_with_doctra opages)
              else normalize_extracted_text (read_pdf_text_direct pages)), true)) := by
  constructor
  · intro h
    have e : parse_pdf (Except.ok pages) ocr =
        Except.ok (normalize_extracted_text (read_pdf_text_direct pages), false) := by
      simp only [parse_pdf]; rw [if_pos h]
    have e' : parse_pdf (Except.ok pages) ocr' =
        Except.ok (normalize_extracted_text (read_pdf_text_direct pages), false) := by
      simp only [parse_pdf]; rw [if_pos h]
    exact ⟨e, e.trans e'.symm⟩
  · intro h opages hoc
    subst hoc
    simp only [parse_pdf]
    rw [if_neg (Nat.not_le.mpr h)]
    split_ifs with h2 <;> rfl

set_option maxRecDepth 40000 in
/-- Witness for C1: a 250-character text layer is accepted without OCR, and a
short text layer loses to a longer OCR result. -/
theorem parse_pdf_threshold_spec_witness :
    parse_pdf (Except.ok [String.mk (List.replicate 250 'a')] : Except Unit (List String))
        (Except.ok []) =
      Except.ok (normalize_extracted_text
        (read_pdf_text_direct [String.mk (List.replicate 250 'a')]), false) ∧
    parse_pdf (Except.ok [] : Except Unit (List String)) (Except.ok ["b"]) =
      Except.ok ((if (normalize_extracted_text (read_pdf_text_direct [])).length <
            (normalize_extracted_text (ocr_pdf_with_doctra ["b"])).length
          then normalize_extracted_text (ocr_pdf_with_doctra ["b"])
          else normalize_extracted_text (read_pdf_text_direct [])), true) :=
  ⟨((parse_pdf_threshold_spec [String.mk (List.replicate 250 'a')]
      (Except.ok []) (Except.ok [])).1 (by decide)).1,
   (parse_pdf_threshold_spec [] (Except.ok ["b"]) (Except.ok ["b"])).2 (by decide) ["b"] rfl⟩

/-- C3 counterexample: on a document whose body is a table followed by a
paragraph, `read_docx_text_direct` emits the paragraph line before the table
row, while the document-order reading of the claim emits the table row
first — so an output line does not, in general, appear in the position its
source element occupies in the document. -/
theorem read_docx_order_counterexample :
    read_docx_text_direct ⟨[DocxBlock.table [["X"]], DocxBlock.para "P"]⟩ = "P\nX" ∧
    read_docx_document_order ⟨[DocxBlock.table [["X"]], DocxBlock.para "P"]⟩ = "X\nP" ∧
    read_docx_text_direct ⟨[DocxBlock.table [["X"]], DocxBlock.para "P"]⟩ ≠
      read_docx_document_order ⟨[DocxBlock.table [["X"]], DocxBlock.para "P"]⟩ := by
  decide

/-- Appending the cleaned images of the scanned elements: the accumulating
loop of `read_docx_text_direct` in map/filter form. -/
theorem foldl_append_clean {α : Type} (f : α → String) (l : List α) (init : List String) :
    l.foldl (fun acc x => if f x ≠ "" then acc ++ [f x] else acc) init =
      init ++ (l.map f).filter (fun t => t ≠ "") := by
  induction l generalizing init with
  | nil => simp
  | cons x rest ih =>
    simp only [List.foldl_cons, List.map_cons, List.filter_cons, ih]
    by_cases h : f x = ""
    · simp [h]
    · simp [h]

/-- The nested table loop of `read_docx_text_direct` in flatMap form. -/
theorem foldl_tables_clean (tables : List (List (List String))) (init : List String) :
    tables.foldl (fun acc tbl => tbl.foldl
        (fun acc2 row => if docxRowText row ≠ "" then acc2 ++ [docxRowText row] else acc2) acc)
      init =
      init ++ tables.flatMap (fun tbl => (tbl.map docxRowText).filter fun rt => rt ≠ "") := by
  induction tables generalizing init with
  | nil => simp
  | cons t ts ih =>
    rw [List.foldl_cons, foldl_append_clean docxRowText t init, ih, List.flatMap_cons,
      List.append_assoc]

/-- C3 amended: `read_docx_text_direct` walks the paragraphs (skipping
whitespace-only ones) and then the table rows (cells joined by `" | "`,
blank rows skipped), joining with newlines — all paragraph lines come first,
in paragraph order, followed by all table-row lines, in table order; the
interleaved document order of paragraphs and tables is not preserved. -/
theorem read_docx_text_direct_groups (doc : DocxDocument) :
    read_docx_text_direct doc =
      String.intercalate "\n" (docxParagraphLines doc ++ docxTableLines doc) := by
  simp only [read_docx_text_direct, docxParagraphLines, docxTableLines]
  rw [foldl_append_clean pyStripStr, foldl_tables_clean]
  simp

/-- C6: whenever the kind-specific extraction step raises, `extract_text`
propagates exactly that failure (wrapped as the extraction failure, never
replaced by anything the cleanup does), and the `finally` cleanup runs
before propagation: the outputs directory exists afterwards only if it
existed and the swallowed `rmtree` removal failed. -/
theorem extract_text_failure_cleanup {ε : Type} (name : String) (ct : Option String)
    (pdfDirect pdfOcr : Except ε (List String)) (docLoad : Except ε DocxDocument)
    (parserFiles : Except ε (List (String × String))) (imageOcr : Except ε String)
    (outputsExists rmtreeRemoves : Bool) (kind : FileKind) (e : ε)
    (hk : detect_file_kind name ct = Except.ok kind)
    (he : dispatch_parse kind pdfDirect pdfOcr docLoad parserFiles imageOcr = Except.error e) :
    extract_text name ct pdfDirect pdfOcr docLoad parserFiles imageOcr
        outputsExists rmtreeRemoves =
      (Except.error (ExtractErr.extractionFailure e), outputsExists && !rmtreeRemoves) := by
  simp only [extract_text, hk, he]

/-- Witness for C6: a failing PDF text-layer reader propagates its error and
the outputs directory survives only because removal failed. -/
theorem extract_text_failure_cleanup_witness :
    extract_text "a.pdf" none (Except.error () : Except Unit (List String)) (Except.ok [])
        (Except.ok ⟨[]⟩) (Except.ok []) (Except.ok "") true false =
      (Except.error (ExtractErr.extractionFailure ()), true) :=
  extract_text_failure_cleanup "a.pdf" none _ _ _ _ _ true false FileKind.pdf () rfl rfl

/-- Everything inserted by `insertByPath` was the inserted pair or a member
of the original list. -/
theorem mem_insertByPath {g f : String × String} {l : List (String × String)}
    (h : g ∈ insertByPath f l) : g = f ∨ g ∈ l := by
  induction l with
  | nil => simpa [insertByPath] using h
  | cons p rest ih =>
    simp only [insertByPath] at h
    split_ifs at h
    · exact (List.mem_cons.mp h).imp id id
    · rcases List.mem_cons.mp h with h1 | h1
      · exact Or.inr (List.mem_cons.mpr (Or.inl h1))
      · rcases ih h1 with h2 | h2
        · exact Or.inl h2
        · exact Or.inr (List.mem_cons_of_mem _ h2)

/-- Sorting by path does not add elements. -/
theorem mem_sortByPath {g : String × String} :
    ∀ {l : List (String × String)}, g ∈ sortByPath l → g ∈ l := by
  intro l
  induction l with
  | nil => intro h; simp [sortByPath] at h
  | cons p rest ih =>
    intro h
    simp only [sortByPath, List.foldr_cons] at h
    rcases mem_insertByPath h with h' | h'
    · simp [h']
    · exact List.mem_cons_of_mem _ (ih h')

/-- When every scanned file normalizes to the empty string, the markdown scan
returns the empty string. -/
theorem firstCleanMarkdown_empty :
    ∀ (l : List (String × String)), (∀ f ∈ l, normalize_extracted_text f.2 = "") →
      firstCleanMarkdown l = ""
  | [], _ => rfl
  | f :: rest, h => by
    have hf := h f (List.mem_cons_self _ _)
    simp only [firstCleanMarkdown, hf]
    simpa using firstCleanMarkdown_empty rest fun g hg => h g (List.mem_cons_of_mem _ hg)

/-- When every work-area file normalizes to the empty string,
`read_first_markdown` returns the empty string. -/
theorem read_first_markdown_empty (files : List (String × String))
    (h : ∀ f ∈ files, normalize_extracted_text f.2 = "") :
    read_first_markdown files = "" :=
  firstCleanMarkdown_empty _ fun f hf =>
    h f (List.mem_of_mem_filter (mem_sortByPath hf))

/-- C10: when every strategy tier of the detected kind yields empty (hence,
normalization ending in a strip, whitespace-only) text, `extract_text` does
not raise: it returns the empty text paired with the detected kind — in
particular the DOCX fallback returns `""` when `document.md` is absent and
no markdown file in the work area has non-empty normalized content. -/
theorem extract_text_empty_tiers {ε : Type} (name : String) (ct : Option String)
    (pdfDirect pdfOcr : Except ε (List String)) (docLoad : Except ε DocxDocument)
    (parserFiles : Except ε (List (String × String))) (imageOcr : Except ε String)
    (outputsExists rmtreeRemoves : Bool) :
    (∀ pages opages, detect_file_kind name ct = Except.ok FileKind.pdf →
      pdfDirect = Except.ok pages → pdfOcr = Except.ok opages →
      normalize_extracted_text (read_pdf_text_direct pages) = "" →
      normalize_extracted_text (ocr_pdf_with_doctra opages) = "" →
      (extract_text name ct pdfDirect pdfOcr docLoad parserFiles imageOcr
          outputsExists rmtreeRemoves).1 = Except.ok ("", FileKind.pdf)) ∧
    (∀ doc files, detect_file_kind name ct = Except.ok FileKind.docx →
      docLoad = Except.ok doc → parserFiles = Except.ok files →
      normalize_extracted_text (read_docx_text_direct doc) = "" →
      files.lookup "document.md" = none →
      (∀ f ∈ files, normalize_extracted_text f.2 = "") →
      (extract_text name ct pdfDirect pdfOcr docLoad parserFiles imageOcr
          outputsExists rmtreeRemoves).1 = Except.ok ("", FileKind.docx)) ∧
    (∀ t, detect_file_kind name ct = Except.ok FileKind.image →
      imageOcr = Except.ok t → normalize_extracted_text t = "" →
      (extract_text name ct pdfDirect pdfOcr docLoad parserFiles imageOcr
          outputsExists rmtreeRemoves).1 = Except.ok ("", FileKind.image)) := by
  refine ⟨fun pages opages hk hd ho hnd hno => ?_, fun doc files hk hd hp hnd hlk hmd => ?_,
    fun t hk ht hnt => ?_⟩
  · subst hd; subst ho
    simp only [extract_text, hk, dispatch_parse, parse_pdf, hnd, hno]
    simp [Except.map]
  · subst hd; subst hp
    have hrf := read_first_markdown_empty files hmd
    simp only [extract_text, hk, dispatch_parse, parse_docx, hnd, hlk, hrf]
    simp
  · subst ht
    simp only [extract_text, hk, dispatch_parse, parse_image, hnt]

/-- Witness for C10: with a short direct walk, no `document.md` and a single
markdown file with empty content, the DOCX path returns the empty result; an
empty text layer and empty OCR give the empty PDF result; an empty OCR text
gives the empty image result. -/
theorem extract_text_empty_tiers_witness :
    (extract_text "a.pdf" none (Except.ok [] : Except Unit (List String)) (Except.ok [])
        (Except.ok ⟨[]⟩) (Except.ok []) (Except.ok "") false true).1 =
      Except.ok ("", FileKind.pdf) ∧
    (extract_text "a.docx" none (Except.ok [] : Except Unit (List String)) (Except.ok [])
        (Except.ok ⟨[]⟩) (Except.ok [("x.md", "")]) (Except.ok "") false true).1 =
      Except.ok ("", FileKind.docx) ∧
    (extract_text "p" (some "image/png") (Except.ok [] : Except Unit (List String))
        (Except.ok []) (Except.ok ⟨[]⟩) (Except.ok []) (Except.ok " ") false true).1 =
      Except.ok ("", FileKind.image) :=
  ⟨(extract_text_empty_tiers "a.pdf" none _ _ _ _ _ false true).1 [] [] rfl rfl rfl
      (by decide) (by decide),
   (extract_text_empty_tiers "a.docx" none _ _ _ _ _ false true).2.1 ⟨[]⟩ [("x.md", "")]
      rfl rfl rfl (by decide) (by decide) (by decide),
   (extract_text_empty_tiers "p" (some "image/png") _ _ _ _ _ false true).2.2 " "
      rfl rfl (by decide)⟩

/-- Stage 11 leaves no pipe character in its output. -/
theorem replacePipe_no_pipe (l : List Char) : '|' ∉ replacePipe l := by
  intro h
  rcases List.mem_map.mp h with ⟨c, _, hc⟩
  split_ifs at hc with hcp
  · exact absurd hc (by decide)
  · exact hcp hc

/-- Flushed newline runs consist of newlines. -/
theorem mem_newlineFlush {c : Char} {k : Nat} (h : c ∈ newlineFlush k) : c = '\n' := by
  unfold newlineFlush at h
  split_ifs at h
  · simpa using h
  · exact List.eq_of_mem_replicate h

/-- Stage 12 introduces no character other than newlines. -/
theorem mem_collapseNewlinesGo {c : Char} :
    ∀ (k : Nat) (l : List Char), c ∈ collapseNewlinesGo k l → c ∈ l ∨ c = '\n' := by
  intro k l
  induction l generalizing k with
  | nil =>
    intro h
    simp only [collapseNewlinesGo] at h
    exact Or.inr (mem_newlineFlush h)
  | cons d rest ih =>
    intro h
    simp only [collapseNewlinesGo] at h
    split_ifs at h with hd
    · rcases ih _ h with h1 | h1
      · exact Or.inl (List.mem_cons_of_mem _ h1)
      · exact Or.inr h1
    · rcases List.mem_append.mp h with h1 | h1
      · exact Or.inr (mem_newlineFlush h1)
      · rcases List.mem_cons.mp h1 with h2 | h2
        · exact Or.inl (by simp [h2])
        · rcases ih _ h2 with h3 | h3
          · exact Or.inl (List.mem_cons_of_mem _ h3)
          · exact Or.inr h3

/-- Flushed blank runs consist of buffered characters or a single space. -/
theorem mem_blankFlush {c : Char} {acc : List Char} (h : c ∈ blankFlush acc) :
    c ∈ acc ∨ c = ' ' := by
  unfold blankFlush at h
  split_ifs at h
  · exact Or.inr (by simpa using h)
  · exact Or.inl (List.mem_reverse.mp h)

/-- Stage 13 introduces no character other than spaces. -/
theorem mem_collapseBlanksGo {c : Char} :
    ∀ (acc l : List Char), c ∈ collapseBlanksGo acc l → c ∈ acc ∨ c ∈ l ∨ c = ' ' := by
  intro acc l
  induction l generalizing acc with
  | nil =>
    intro h
    simp only [collapseBlanksGo] at h
    rcases mem_blankFlush h with h1 | h1
    · exact Or.inl h1
    · exact Or.inr (Or.inr h1)
  | cons d rest ih =>
    intro h
    simp only [collapseBlanksGo] at h
    split_ifs at h with hd
    · rcases ih _ h with h1 | h1
      · rcases List.mem_cons.mp h1 with h2 | h2
        · exact Or.inr (Or.inl (by simp [h2]))
        · exact Or.inl h2
      · rcases h1 with h2 | h2
        · exact Or.inr (Or.inl (List.mem_cons_of_mem _ h2))
        · exact Or.inr (Or.inr h2)
    · rcases List.mem_append.mp h with h1 | h1
      · rcases mem_blankFlush h1 with h2 | h2
        · exact Or.inl h2
        · exact Or.inr (Or.inr h2)
      · rcases List.mem_cons.mp h1 with h2 | h2
        · exact Or.inr (Or.inl (by simp [h2]))
        · rcases ih _ h2 with h3 | h3
          · exact absurd h3 (List.not_mem_nil _)
          · rcases h3 with h4 | h4
            · exact Or.inr (Or.inl (List.mem_cons_of_mem _ h4))
            · exact Or.inr (Or.inr h4)

/-- Stage 14 only removes characters. -/
theorem mem_pyStrip {c : Char} {l : List Char} (h : c ∈ pyStrip l) : c ∈ l := by
  unfold pyStrip at h
  have h1 := List.mem_reverse.mp h
  have h2 : c ∈ (l.dropWhile fun c => isPySpace c).reverse :=
    (List.dropWhile_sublist _).subset h1
  have h3 := List.mem_reverse.mp h2
  exact (List.dropWhile_sublist _).subset h3

/-- A blank (space or tab) is whitespace. -/
theorem isPySpace_of_isBlank {c : Char} (h : isBlank c = true) : isPySpace c = true := by
  simp only [isBlank, Bool.or_eq_true, beq_iff_eq] at h
  rcases h with e | e <;> subst e <;> decide

/-- `noTwoAdjacentWs` passes to the tail. -/
theorem noTwoAdjacentWs_tail {c : Char} {l : List Char}
    (h : noTwoAdjacentWs (c :: l) = true) : noTwoAdjacentWs l = true := by
  cases l with
  | nil => rfl
  | cons d rest =>
    simp only [noTwoAdjacentWs, Bool.and_eq_true] at h
    exact h.2

/-- Adjacent characters with a whitespace head: the second is not
whitespace. -/
theorem noTwoAdjacentWs_head {c d : Char} {l : List Char}
    (h : noTwoAdjacentWs (c :: d :: l) = true) (hc : isPySpace c = true) :
    isPySpace d = false := by
  simp only [noTwoAdjacentWs, Bool.and_eq_true, Bool.not_eq_true', Bool.and_eq_false_iff] at h
  rcases h.1 with h1 | h1
  · rw [hc] at h1; exact absurd h1 (by decide)
  · exact h1

/-- Stage 1 is the identity on carriage-return-free text. -/
theorem replaceCRLF_id : ∀ (l : List Char), '\r' ∉ l → replaceCRLF l = l
  | [], _ => rfl
  | [_], _ => rfl
  | c :: d :: rest, h => by
    have hc : ¬(c = '\r' ∧ d = '\n') := fun hand => h (by simp [hand.1])
    simp only [replaceCRLF]
    rw [if_neg hc, replaceCRLF_id (d :: rest) fun m => h (List.mem_cons_of_mem _ m)]

/-- Stage 2 is the identity on bang-free text. -/
theorem imageGo_base_id : ∀ (l : List Char), '!' ∉ l → imageGo .base l = l
  | [], _ => rfl
  | c :: rest, h => by
    have hc : c ≠ '!' := fun e => h (by simp [e])
    simp only [imageGo]
    rw [if_neg hc, imageGo_base_id rest fun m => h (List.mem_cons_of_mem _ m)]

/-- Stage 3 is the identity on hash-free text, from either scanning state. -/
theorem headingGo_id : ∀ (l : List Char), '#' ∉ l →
    headingGo .ls l = l ∧ headingGo .out l = l
  | [], _ => ⟨rfl, rfl⟩
  | c :: rest, h => by
    have hc : c ≠ '#' := fun e => h (by simp [e])
    have ih := headingGo_id rest fun m => h (List.mem_cons_of_mem _ m)
    refine ⟨?_, ?_⟩
    · simp only [headingGo]
      rw [if_neg hc]
      by_cases hn : c = '\n'
      · rw [if_pos hn, ih.1, hn]
      · rw [if_neg hn, ih.2]
    · simp only [headingGo]
      by_cases hn : c = '\n'
      · rw [if_pos hn, ih.1, hn]
      · rw [if_neg hn, ih.2]

/-- Stage 4 is the identity on marker-free text: the line-start state flushes
its buffered whitespace unchanged and the mid-line state copies. -/
theorem bulletGo_id : ∀ (l : List Char) (acc : List Char),
    (∀ c ∈ l, isBulletMarker c = false) →
    bulletGo (.ls acc) l = acc.reverse ++ l ∧ bulletGo .out l = l
  | [], acc, _ => ⟨by simp [bulletGo], rfl⟩
  | c :: rest, acc, h => by
    have hc : isBulletMarker c = false := h c (List.mem_cons_self _ _)
    have ih := fun acc' => bulletGo_id rest acc' fun x m => h x (List.mem_cons_of_mem _ m)
    refine ⟨?_, ?_⟩
    · simp only [bulletGo]
      by_cases hs : isPySpace c = true
      · rw [if_pos hs, (ih (c :: acc)).1]
        simp
      · rw [if_neg hs, if_neg (by simp [hc]), (ih []).2]
    · simp only [bulletGo]
      by_cases hn : c = '\n'
      · rw [if_pos hn, (ih []).1, hn]
        simp
      · rw [if_neg hn, (ih []).2]

/-- Stage 5 is the identity on text without blockquote markers. -/
theorem quoteGo_id : ∀ (l : List Char) (acc : List Char), '>' ∉ l →
    quoteGo (.ls acc) l = acc.reverse ++ l ∧ quoteGo .out l = l
  | [], acc, _ => ⟨by simp [quoteGo], rfl⟩
  | c :: rest, acc, h => by
    have hc : c ≠ '>' := fun e => h (by simp [e])
    have ih := fun acc' => quoteGo_id rest acc' fun m => h (List.mem_cons_of_mem _ m)
    refine ⟨?_, ?_⟩
    · simp only [quoteGo]
      by_cases hs : isPySpace c = true
      · rw [if_pos hs, (ih (c :: acc)).1]
        simp
      · rw [if_neg hs, if_neg hc, (ih []).2]
    · simp only [quoteGo]
      by_cases hn : c = '\n'
      · rw [if_pos hn, (ih []).1, hn]
        simp
      · rw [if_neg hn, (ih []).2]

/-- Stage 6 is the identity on backtick-free text. -/
theorem codeGo_base_id : ∀ (l : List Char), btChar ∉ l → codeGo .base l = l
  | [], _ => rfl
  | c :: rest, h => by
    have hc : c ≠ btChar := fun e => h (by simp [e])
    simp only [codeGo]
    rw [if_neg hc, codeGo_base_id rest fun m => h (List.mem_cons_of_mem _ m)]

/-- Stages 7 and 8 are the identity on delimiter-free text. -/
theorem emphGo_base_id (d : Char) : ∀ (l : List Char), d ∉ l → emphGo d .base l = l
  | [], _ => rfl
  | c :: rest, h => by
    have hc : c ≠ d := fun e => h (by simp [e])
    simp only [emphGo]
    rw [if_neg hc, emphGo_base_id d rest fun m => h (List.mem_cons_of_mem _ m)]

/-- Stage 9 is the identity on bracket-free text. -/
theorem linkGo_base_id : ∀ (l : List Char), '[' ∉ l → linkGo .base l = l
  | [], _ => rfl
  | c :: rest, h => by
    have hc : c ≠ '[' := fun e => h (by simp [e])
    simp only [linkGo]
    rw [if_neg hc, linkGo_base_id rest fun m => h (List.mem_cons_of_mem _ m)]

/-- Stage 10 is the identity on text without dashes, colons or pipes whose
whitespace is isolated (no two adjacent whitespace characters) and that does
not end in whitespace: every class run the scanner can collect has length one,
contains no interior newline and never reaches the end of the text. -/
theorem tableSepGo_id : ∀ (l : List Char),
    (∀ c ∈ l, c ≠ '-' ∧ c ≠ ':' ∧ c ≠ '|') →
    noTwoAdjacentWs l = true →
    (l.getLast?.all fun c => !isPySpace c) = true →
    tableSepGo (.run []) l = l ∧ tableSepGo .out l = l ∧
      (∀ w, isPySpace w = true → (l.head?.all fun c => !isPySpace c) = true → l ≠ [] →
        tableSepGo (.run [w]) l = w :: l)
  | [], _, _, _ => ⟨rfl, rfl, fun _ _ _ hne => absurd rfl hne⟩
  | c :: rest, hch, hadj, hlast => by
    have hch' : ∀ x ∈ rest, x ≠ '-' ∧ x ≠ ':' ∧ x ≠ '|' :=
      fun x m => hch x (List.mem_cons_of_mem _ m)
    have hadj' := noTwoAdjacentWs_tail hadj
    have hlast' : (rest.getLast?.all fun x => !isPySpace x) = true := by
      cases rest with
      | nil => rfl
      | cons d r2 => rwa [List.getLast?_cons_cons] at hlast
    have ih := tableSepGo_id rest hch' hadj' hlast'
    have hcch := hch c (List.mem_cons_self _ _)
    refine ⟨?_, ?_, ?_⟩
    · simp only [tableSepGo]
      by_cases hts : isTableSepChar c = true
      · have hw : isPySpace c = true := by
          simp only [isTableSepChar, Bool.or_eq_true, beq_iff_eq] at hts
          rcases hts with ((e | e) | e) | e
          · exact absurd e hcch.1
          · exact absurd e hcch.2.1
          · exact absurd e hcch.2.2
          · exact e
        rw [if_pos hts]
        have hne : rest ≠ [] := by
          intro e
          subst e
          have : isPySpace c = false := by simpa using hlast
          rw [hw] at this
          exact absurd this (by decide)
        have hh : (rest.head?.all fun x => !isPySpace x) = true := by
          cases rest with
          | nil => rfl
          | cons d r2 => simpa using noTwoAdjacentWs_head hadj hw
        exact ih.2.2 c hw hh hne
      · rw [if_neg hts]
        simp only [List.reverse_nil, lastNlIdxAux]
        rw [ih.2.1]
        rfl
    · simp only [tableSepGo]
      by_cases hn : c = '\n'
      · rw [if_pos hn, ih.1, hn]
      · rw [if_neg hn, ih.2.1]
    · intro w hw hh _
      have hcw : isPySpace c = false := by simpa using hh
      have hts : isTableSepChar c = false := by
        simp only [isTableSepChar, Bool.or_eq_false_iff, beq_eq_false_iff_ne]
        exact ⟨⟨⟨hcch.1, hcch.2.1⟩, hcch.2.2⟩, hcw⟩
      simp only [tableSepGo]
      rw [if_neg (by simp [hts])]
      have hnl : lastNlIdxAux 0 none [w].reverse = none := by
        simp [lastNlIdxAux]
      rw [hnl, ih.2.1]
      rfl

/-- Stage 11 is the identity on pipe-free text. -/
theorem replacePipe_id : ∀ (l : List Char), '|' ∉ l → replacePipe l = l
  | [], _ => rfl
  | c :: rest, h => by
    have hc : c ≠ '|' := fun e => h (by simp [e])
    simp only [replacePipe, List.map_cons]
    rw [if_neg hc]
    exact congrArg (c :: ·) (replacePipe_id rest fun m => h (List.mem_cons_of_mem _ m))

/-- Stage 12 is the identity when no two whitespace characters are adjacent:
newline runs have length at most one, and a pending single newline is flushed
unchanged. -/
theorem collapseNewlinesGo_id : ∀ (l : List Char), noTwoAdjacentWs l = true →
    collapseNewlinesGo 0 l = l ∧ collapseNewlinesGo 1 l = '\n' :: l
  | [], _ => ⟨rfl, by simp [collapseNewlinesGo, newlineFlush]⟩
  | c :: rest, h => by
    have h' := noTwoAdjacentWs_tail h
    have ih := collapseNewlinesGo_id rest h'
    by_cases hc : c = '\n'
    · subst hc
      refine ⟨?_, ?_⟩
      · simp only [collapseNewlinesGo]
        rw [if_pos trivial]
        exact ih.2
      · simp only [collapseNewlinesGo]
        rw [if_pos trivial]
        cases rest with
        | nil => simp [collapseNewlinesGo, newlineFlush]
        | cons d r2 =>
          have hd : isPySpace d = false := noTwoAdjacentWs_head h (by decide)
          have hdn : d ≠ '\n' := fun e => by rw [e] at hd; exact absurd hd (by decide)
          simp only [collapseNewlinesGo]
          rw [if_neg hdn, (collapseNewlinesGo_id r2 (noTwoAdjacentWs_tail h')).1]
          simp [newlineFlush]
    · refine ⟨?_, ?_⟩
      · simp only [collapseNewlinesGo]
        rw [if_neg hc, ih.1]
        simp [newlineFlush]
      · simp only [collapseNewlinesGo]
        rw [if_neg hc, ih.1]
        simp [newlineFlush]

/-- Stage 13 is the identity when no two whitespace characters are adjacent:
blank runs have length at most one, and a pending single blank is flushed
unchanged. -/
theorem collapseBlanksGo_id : ∀ (l : List Char), noTwoAdjacentWs l = true →
    collapseBlanksGo [] l = l ∧
      (∀ w, (l.head?.all fun c => !isBlank c) = true → collapseBlanksGo [w] l = w :: l)
  | [], _ => ⟨rfl, fun w _ => by simp [collapseBlanksGo, blankFlush]⟩
  | c :: rest, h => by
    have h' := noTwoAdjacentWs_tail h
    have ih := collapseBlanksGo_id rest h'
    refine ⟨?_, ?_⟩
    · simp only [collapseBlanksGo]
      by_cases hb : isBlank c = true
      · rw [if_pos hb]
        have hh : (rest.head?.all fun x => !isBlank x) = true := by
          cases rest with
          | nil => rfl
          | cons d r2 =>
            have hd : isPySpace d = false := noTwoAdjacentWs_head h (isPySpace_of_isBlank hb)
            have : isBlank d = false := by
              cases hbd : isBlank d
              · rfl
              · rw [isPySpace_of_isBlank hbd] at hd; exact absurd hd (by decide)
            simpa using this
        exact ih.2 c hh
      · rw [if_neg hb, ih.1]
        simp [blankFlush]
    · intro w hh
      have hcb : isBlank c = false := by simpa using hh
      simp only [collapseBlanksGo]
      rw [if_neg (by simp [hcb]), ih.1]
      simp [blankFlush]

/-- Stage 14 is the identity on text that neither starts nor ends with
whitespace. -/
theorem pyStrip_id (l : List Char)
    (hh : (l.head?.all fun c => !isPySpace c) = true)
    (hl : (l.getLast?.all fun c => !isPySpace c) = true) : pyStrip l = l := by
  unfold pyStrip
  have h1 : (l.dropWhile fun c => isPySpace c) = l := by
    cases l with
    | nil => rfl
    | cons c rest =>
      have hc : isPySpace c = false := by simpa using hh
      simp [List.dropWhile_cons, hc]
  rw [h1]
  have h2 : (l.reverse.dropWhile fun c => isPySpace c) = l.reverse := by
    cases hr : l.reverse with
    | nil => rfl
    | cons c rest =>
      have hc0 : l.getLast? = some c := by rw [← List.head?_reverse, hr]; rfl
      have hc : isPySpace c = false := by rw [hc0] at hl; simpa using hl
      simp [List.dropWhile_cons, hc]
  rw [h2, List.reverse_reverse]

/-- On clean text the whole normalization pipeline is the identity. -/
theorem normalizeChars_clean_id (l : List Char) (h : CleanText l) :
    normalizeChars l = l := by
  obtain ⟨hchar, hadj, hhead, hlast⟩ := h
  have notMem : ∀ x : Char, isTriggerChar x = true → x ∉ l := fun x hx m => by
    rw [hchar x m] at hx
    exact absurd hx (by decide)
  have hmk : ∀ c ∈ l, isBulletMarker c = false := fun c m => by
    cases hb : isBulletMarker c
    · rfl
    · exfalso
      have ht : isTriggerChar c = true := by
        simp only [isBulletMarker, Bool.or_eq_true, beq_iff_eq] at hb
        rcases hb with (e | e) | e <;> subst e <;> decide
      rw [hchar c m] at ht
      exact absurd ht (by decide)
  have hts : ∀ c ∈ l, c ≠ '-' ∧ c ≠ ':' ∧ c ≠ '|' := fun c m =>
    ⟨fun e => absurd (hchar c m) (by subst e; decide),
     fun e => absurd (hchar c m) (by subst e; decide),
     fun e => absurd (hchar c m) (by subst e; decide)⟩
  have hbul : bulletGo (.ls []) l = l := by
    have := (bulletGo_id l [] hmk).1
    simpa using this
  have hq : quoteGo (.ls []) l = l := by
    have := (quoteGo_id l [] (notMem '>' (by decide))).1
    simpa using this
  unfold normalizeChars
  rw [replaceCRLF_id l (notMem '\r' (by decide)),
    imageGo_base_id l (notMem '!' (by decide)),
    (headingGo_id l (notMem '#' (by decide))).1,
    hbul, hq,
    codeGo_base_id l (notMem btChar (by decide)),
    emphGo_base_id '*' l (notMem '*' (by decide)),
    emphGo_base_id '_' l (notMem '_' (by decide)),
    linkGo_base_id l (notMem '[' (by decide)),
    (tableSepGo_id l hts hadj hlast).1,
    replacePipe_id l (notMem '|' (by decide)),
    (collapseNewlinesGo_id l hadj).1,
    (collapseBlanksGo_id l hadj).1,
    pyStrip_id l hhead hlast]

/-- C2 amended: normalization is not idempotent on all inputs (see the
counterexample), but it is idempotent on clean text — any input free of
marker characters, with no two adjacent whitespace characters and no leading
or trailing whitespace, is a fixed point of normalization, so a second
application changes nothing. -/
theorem normalize_idempotent_on_clean (s : String) (h : CleanText s.data) :
    normalize_extracted_text (normalize_extracted_text s) = normalize_extracted_text s := by
  have hid : normalize_extracted_text s = s := by
    unfold normalize_extracted_text
    rw [normalizeChars_clean_id _ h]
  rw [hid]
  exact hid

/-- Witness for C2 amended at a clean concrete input. -/
theorem normalize_idempotent_on_clean_witness :
    normalize_extracted_text (normalize_extracted_text "ab c.") =
      normalize_extracted_text "ab c." :=
  normalize_idempotent_on_clean "ab c." (by decide)

/-- C7: the output of `normalize_extracted_text` never contains a pipe
character: stage 11 replaces every pipe by a space, and the remaining stages
only drop characters or introduce newlines and spaces. -/
theorem normalize_no_pipe (s : String) : '|' ∉ (normalize_extracted_text s).data := by
  intro h
  have h1 := mem_pyStrip h
  rcases mem_collapseBlanksGo _ _ h1 with h2 | h2 | h2
  · exact absurd h2 (List.not_mem_nil _)
  · rcases mem_collapseNewlinesGo _ _ h2 with h3 | h3
    · exact replacePipe_no_pipe _ h3
    · exact absurd h3 (by decide)
  · exact absurd h2 (by decide)

end ExtractService
